import Mathlib

/-!
A shallow embedding of the dispatch pipeline of `src/main.py`
(forex-news-bot): the keyword classifier, the persistent dedup state,
the flood-safe sending queue (`Sender`), and the main polling loop
(`run_bot`), together with theorems about the behaviour the
specification ascribes to them.

Modelling conventions, used throughout:
- Python dicts keyed by strings are association lists `List (String × Nat)`
  with in-place update (`dictSet`); only key membership is ever observed.
- Wall-clock instants are integers (seconds); `timedelta(minutes=m)` is
  `m * 60`. Rationals are used for the sleep accounting of the sender,
  since `SEND_DELAY_SECONDS` is a float (default 3.5).
- `bot.send_message` is the external Publisher collaborator; one call is
  one `Outcome` drawn from an oracle (message index × attempt index →
  outcome), covering exactly the four outcomes distinguished by the
  `except` clauses of `Sender._send_with_retry`.
- Message texts (`build_message`, `build_alert_message`) are rendering
  collaborators; no claim depends on the rendered text, so queue entries
  are tracked by the dedup key of the item or alert they were built from.
- The asyncio runtime is single threaded; `asyncio.Queue.put` on an
  unbounded queue never suspends, so one iteration of the `run_bot` body
  runs to completion before the `Sender._worker` task makes progress.
  Traces therefore list the producer events of a cycle followed by the
  consumer events draining the queue.
-/

namespace ForexBot

/-! ## Small string helpers (Python semantics) -/

/-- Python `a.startswith(b)` on code-point lists. -/
def listStartsWith : List Char → List Char → Bool
  | _, [] => true
  | [], _ :: _ => false
  | c :: cs, d :: ds => c = d && listStartsWith cs ds

/-- Python `a.startswith(b)`. -/
def strStartsWith (s pre : String) : Bool :=
  listStartsWith s.data pre.data

/-- Python `needle in hay` (substring containment), as used by the
keyword matchers in `detect_strength` / `detect_sentiment`. -/
def strContains (hay needle : String) : Bool :=
  (List.range (hay.data.length + 1)).any
    (fun i => listStartsWith (hay.data.drop i) needle.data)

/-- Python `text.lower()`.  `Char.toLower` only lowers ASCII letters;
every keyword in `src/main.py` is either ASCII lowercase already or
Arabic (caseless), so this agrees with Python on the texts involved. -/
def py_lower (s : String) : String :=
  ⟨s.data.map Char.toLower⟩

/-- Python `(text or "")` for an optional string: `None` and the empty
string both collapse to the empty string. -/
def py_or_empty : Option String → String
  | none => ""
  | some s => s

/-- Python whitespace, for the `\s` class of `re.sub(r"\s+", " ", ...)`
(the ASCII part; the texts involved carry no exotic Unicode spaces). -/
def isPyWs (c : Char) : Bool :=
  c = ' ' || c = '\t' || c = '\n' || c = '\x0b' || c = '\x0c' || c = '\r'

/-- Collapse each maximal whitespace run to one space
(`re.sub(r"\s+", " ", text)`); the flag records whether the previous
character was inside a whitespace run. -/
def collapseWsGo : Bool → List Char → List Char
  | _, [] => []
  | inRun, c :: cs =>
    if isPyWs c then
      (if inRun then [] else [' ']) ++ collapseWsGo true cs
    else c :: collapseWsGo false cs

def collapseWs (l : List Char) : List Char :=
  collapseWsGo false l

/-- Python `s.strip()` restricted to the single spaces left by
`collapseWs`. -/
def stripEnds (l : List Char) : List Char :=
  ((l.dropWhile isPyWs).reverse.dropWhile isPyWs).reverse

/-- Embeds `normalize_spaces` of `src/main.py` (lines 68-69):
`re.sub(r"\s+", " ", (text or "")).strip()`. -/
def normalize_spaces (text : String) : String :=
  ⟨stripEnds (collapseWs text.data)⟩

/-- Embeds `short_hash` of `src/main.py` (lines 71-73): SHA-256 hexdigest of the
`"|"`-joined parts, truncated to 16 hex digits.  The digest itself is a
cryptographic collaborator, abstracted as the parameter `H`; everything
the claims need (determinism in the parts) is preserved. -/
def short_hash (H : String → String) (parts : List String) : String :=
  (H (String.intercalate "|" parts)).take 16

/-! ## Classifier (`detect_strength`, `detect_sentiment`, lines 110-133) -/

def strong_kw : List String :=
  ["high impact", "breaking", "urgent", "قوي", "قوية", "عاجل", "هام",
   "مهم", "تنبيه", "تدخل", "intervention"]

def medium_kw : List String := ["moderate", "متوسط", "متوسطة"]

def low_kw : List String := ["low impact", "منخفض", "منخفضة"]

def pos_kw : List String :=
  ["rises", "rise", "up", "gains", "bull", "positive", "إيجابي",
   "ارتفاع", "يصعد", "تصعد", "مكاسب", "قوة"]

def neg_kw : List String :=
  ["falls", "fall", "down", "drops", "bear", "negative", "سلبي",
   "هبوط", "ينخفض", "تراجع", "خسائر", "ضعف"]

/-- Embeds `any(k in t for k in kws)`. -/
def kwAny (t : String) (kws : List String) : Bool :=
  kws.any (fun k => strContains t k)

/-- Embeds `detect_strength` (lines 110-123).  The argument is optional to model
the `(text or "")` coalescing of the source. -/
def detect_strength (text : Option String) : String :=
  let t := py_lower (py_or_empty text)
  if kwAny t strong_kw then "عالي"
  else if kwAny t medium_kw then "متوسط"
  else if kwAny t low_kw then "منخفض"
  else "متوسط"

/-- Embeds `detect_sentiment` (lines 125-133). -/
def detect_sentiment (text : Option String) : String :=
  let t := py_lower (py_or_empty text)
  if kwAny t pos_kw then "إيجابي"
  else if kwAny t neg_kw then "سلبي"
  else "محايد"

/-! ## Dedup state (`load_state` .. `is_alert_sent`, lines 224-250) -/

/-- Python dict membership `k in d` for a string-keyed dict. -/
def dictHas (d : List (String × Nat)) (k : String) : Bool :=
  d.any (fun p => p.1 = k)

/-- Python dict assignment `d[k] = v`: update in place, else append. -/
def dictSet (d : List (String × Nat)) (k : String) (v : Nat) :
    List (String × Nat) :=
  match d with
  | [] => [(k, v)]
  | (k0, v0) :: rest =>
    if k0 = k then (k0, v) :: rest else (k0, v0) :: dictSet rest k v

/-- The in-memory shape of `state.json`:
`{"sent": {...}, "alerts": {...}}`, each namespace a dict from key to the
`int(time.time())` it was recorded at. -/
structure BotState where
  sent : List (String × Nat)
  alerts : List (String × Nat)
deriving DecidableEq, Repr

/-- The empty state `{"sent": {}, "alerts": {}}`. -/
def emptyState : BotState := ⟨[], []⟩

/-- The three ways reading `STATE_FILE` can go in `load_state`:
the file does not exist (`os.path.exists` is false), reading or parsing
raises, or parsing succeeds with some contents. -/
inductive ReadResult where
  | missing
  | failure
  | ok (st : BotState)
deriving DecidableEq

/-- Embeds `load_state` (lines 224-231): missing file yields the empty state;
any exception while opening or parsing is swallowed and also yields the
empty state. -/
def load_state : ReadResult → BotState
  | .missing => emptyState
  | .failure => emptyState
  | .ok st => st

/-- Embeds `mark_sent` (lines 240-241). -/
def mark_sent (st : BotState) (item_id : String) (t : Nat) : BotState :=
  { st with sent := dictSet st.sent item_id t }

/-- Embeds `is_sent` (lines 243-244). -/
def is_sent (st : BotState) (item_id : String) : Bool :=
  dictHas st.sent item_id

/-- Embeds `set_alert_sent` (lines 246-247). -/
def set_alert_sent (st : BotState) (alert_id : String) (t : Nat) : BotState :=
  { st with alerts := dictSet st.alerts alert_id t }

/-- Embeds `is_alert_sent` (lines 249-250). -/
def is_alert_sent (st : BotState) (alert_id : String) : Bool :=
  dictHas st.alerts alert_id

/-! ## The sending queue (`Sender`, lines 255-300)

`Sender.send` appends to an unbounded `asyncio.Queue`; the single
`_worker` task repeatedly takes the oldest message, awaits
`_send_with_retry` to completion, and then — in a `finally:` block, so
on success and on drop alike — sleeps `self.delay` seconds.
`_send_with_retry` makes up to 6 `bot.send_message` attempts; each
failed attempt sleeps per the outcome (`RetryAfter` n ↦ n+1 seconds,
`TimedOut`/`NetworkError` ↦ 3 seconds, any other exception ↦ 2
seconds), and after the sixth failure the function returns, dropping
the message.  All exception classes raised by the attempt are caught,
so `_send_with_retry` never raises. -/

/-- One `bot.send_message` outcome, exactly the cases split by the
`except` clauses of `_send_with_retry` (lines 291-300):
success, `RetryAfter n`, `TimedOut`/`NetworkError`, other exception. -/
inductive Outcome where
  | success
  | retryAfter (n : Nat)
  | netErr
  | otherErr
deriving DecidableEq, Repr

/-- The sleep the `except` clause for this outcome performs before the
next attempt (`int(retry_after) + 1`, 3, 2; success sleeps nothing). -/
def backoffSleep : Outcome → ℚ
  | .success => 0
  | .retryAfter n => (n : ℚ) + 1
  | .netErr => 3
  | .otherErr => 2

/-- One timed Publisher attempt in a consumer trace; `idx` is the queue
position of the message being attempted and `key` the dedup key of the
item or alert its text was built from (ghost data: the real queue holds
only the rendered text). -/
structure TEv where
  time : ℚ
  idx : Nat
  key : String
  out : Outcome
deriving DecidableEq, Repr

/-- Embeds `Sender._send_with_retry` (lines 279-300) as a timed trace:
`pub1 a` is the outcome of attempt number `a`, `fuel` the remaining
iterations of `for _ in range(6)`, `t` the current instant.  Returns the
attempt events, the instant at which the function returns, and whether a
send succeeded (`false` means the message is dropped). -/
def sendRetryTrace (pub1 : Nat → Outcome) (i : Nat) (key : String) :
    Nat → Nat → ℚ → List TEv × ℚ × Bool
  | 0, _, t => ([], t, false)
  | fuel + 1, a, t =>
    match pub1 a with
    | .success => ([⟨t, i, key, .success⟩], t, true)
    | .retryAfter n =>
      let r := sendRetryTrace pub1 i key fuel (a + 1) (t + ((n : ℚ) + 1))
      (⟨t, i, key, .retryAfter n⟩ :: r.1, r.2)
    | .netErr =>
      let r := sendRetryTrace pub1 i key fuel (a + 1) (t + 3)
      (⟨t, i, key, .netErr⟩ :: r.1, r.2)
    | .otherErr =>
      let r := sendRetryTrace pub1 i key fuel (a + 1) (t + 2)
      (⟨t, i, key, .otherErr⟩ :: r.1, r.2)

/-- Embeds `Sender._worker` (lines 270-277) draining a queue: for each queued
message in FIFO order, run `_send_with_retry` to completion (6 attempts
of fuel, starting at attempt 0), then sleep `delay` seconds
(`finally:`), then move to the next message.  `pub i a` is the Publisher
outcome of attempt `a` for the message at queue position `i`; the queue
is given by the dedup keys of its messages. -/
def workerTrace (pub : Nat → Nat → Outcome) (delay : ℚ) :
    List String → Nat → ℚ → List TEv × ℚ
  | [], _, t => ([], t)
  | k :: ks, i, t =>
    let b := sendRetryTrace (pub i) i k 6 0 t
    let rest := workerTrace pub delay ks (i + 1) (b.2.1 + delay)
    (b.1 ++ rest.1, rest.2)

/-! ## The main loop (`run_bot`, lines 422-504)

One iteration of the `while True:` body: (1) for every loaded calendar
event of high impact, enqueue the 30-minute and the 5-minute alert when
due and not yet recorded, recording each immediately after its enqueue;
(2) for the five newest fetched items, skip the ones whose fingerprint
is recorded in `state["sent"]`, classify and enqueue the rest, recording
each immediately after its enqueue.  `save_state` persists the in-memory
state and is invisible at this level (claim C9 treats reading it). -/

/-- An item as produced by `fetch_rss_items` (lines 349-356): `id` is
`short_hash(source, title, str(pub_dt))`, `published` the parsed
timestamp in seconds. -/
structure Item where
  id : String
  title : String
  summary : String
  source : String
  published : Int
deriving DecidableEq, Repr

/-- A calendar event as produced by `load_events` (lines 377-389);
`dt` in seconds, `impact` already lowercased. -/
structure CalEvent where
  id : String
  title : String
  currency : Option String
  country : Option String
  dt : Int
  impact : String
  source : String
deriving DecidableEq, Repr

/-- Embeds `is_high_impact` (lines 395-396). -/
def is_high_impact (ev : CalEvent) : Bool :=
  ev.impact = "high" || ev.impact = "strong" || ev.impact = "عالي"

/-- Observable steps of the main loop and the consumer.  Enqueue events
carry the dedup key of the payload they were built from (and, for news,
the strength the classifier assigned — ghost data recorded for the
theorems; the real queue holds the rendered text). -/
inductive Ev where
  | enqueueNews (key strength : String)
  | enqueueAlert (key : String)
  | markSent (key : String)
  | setAlertSent (key : String)
  | attempt (key : String) (o : Outcome)
deriving DecidableEq, Repr

/-- One guarded alert branch of the loop body (lines 444-449 and
451-457): when the lead-time window is open and the alert key is not
recorded, enqueue the alert text and record the key (in that order). -/
def alertStep (st : BotState) (key : String) (due : Bool) (t : Nat) :
    BotState × List Ev :=
  if due && !is_alert_sent st key then
    (set_alert_sent st key t, [.enqueueAlert key, .setAlertSent key])
  else (st, [])

/-- Lines 439-457 for one event: skip unless high impact; then the
30-minute branch (window `[dt-30min, dt-30min+1min]`) followed — on the
already-updated state — by the 5-minute branch
(window `[dt-5min, dt-5min+1min]`).  `now` is `now_kuwait()` for this
tick and `t` the `int(time.time())` stamp recorded with the key. -/
def processEvent (st : BotState) (ev : CalEvent) (now : Int) (t : Nat) :
    BotState × List Ev :=
  if !is_high_impact ev then (st, [])
  else
    let t30 : Int := ev.dt - 30 * 60
    let r30 := alertStep st (ev.id ++ "_a30")
      (decide (t30 ≤ now ∧ now ≤ t30 + 60)) t
    let t5 : Int := ev.dt - 5 * 60
    let r5 := alertStep r30.1 (ev.id ++ "_a05")
      (decide (t5 ≤ now ∧ now ≤ t5 + 60)) t
    (r5.1, r30.2 ++ r5.2)

/-- Lines 472-474: drop a summary that repeats the title
(`normalize_spaces(summary).startswith(normalize_spaces(title))` on a
nonempty summary strips the first `len(title)` characters and
renormalizes). -/
def effSummary (it : Item) : String :=
  if it.summary ≠ "" &&
      strStartsWith (normalize_spaces it.summary) (normalize_spaces it.title)
  then normalize_spaces (it.summary.drop it.title.length)
  else it.summary

/-- The text handed to the classifier for an item
(`title + " " + summary` after the summary fixup, lines 477-478). -/
def newsText (it : Item) : String :=
  it.title ++ " " ++ effSummary it

/-- Lines 463-498 for one item of `items[:5]`: skip if the fingerprint
is recorded in `state["sent"]`; otherwise classify, build the message
(rendering is a collaborator; the event records the key and the
strength), enqueue it, and record the fingerprint — in that order,
regardless of what later happens to the message in the queue. -/
def processNewsItem (st : BotState) (t : Nat) (it : Item) :
    BotState × List Ev :=
  if is_sent st it.id then (st, [])
  else
    let strength := detect_strength (some (newsText it))
    (mark_sent st it.id t, [.enqueueNews it.id strength, .markSent it.id])

/-- Sequencing of per-element steps threading the state and
concatenating the emitted events, as the `for` loops of the body do. -/
def processList (f : BotState → α → BotState × List Ev) :
    BotState → List α → BotState × List Ev
  | st, [] => (st, [])
  | st, x :: xs =>
    let r := f st x
    let rest := processList f r.1 xs
    (rest.1, r.2 ++ rest.2)

/-- The inputs one iteration of the `while True:` body draws from the
outside world: the event snapshot (`load_events()`), the clock
(`now_kuwait()`), the fetched items (`fetch_rss_items()`), and the
`int(time.time())` stamp. -/
structure CycleInput where
  events : List CalEvent
  now : Int
  items : List Item
  wall : Nat
deriving Repr

/-- One iteration of the `while True:` body (lines 433-500): all alert
branches, then the news loop over `items[:5]`. -/
def runCycle (st : BotState) (c : CycleInput) : BotState × List Ev :=
  let a := processList (fun s ev => processEvent s ev c.now c.wall) st c.events
  let b := processList (fun s it => processNewsItem s c.wall it) a.1
    (c.items.take 5)
  (b.1, a.2 ++ b.2)

/-- Embeds `run_bot` over a whole run: the loop body once per cycle input,
threading the state. -/
def runBot (st : BotState) (cs : List CycleInput) : BotState × List Ev :=
  processList runCycle st cs

/-- The dedup keys of the messages a cycle put on the queue, in enqueue
order. -/
def enqueuedKeys (evs : List Ev) : List String :=
  evs.filterMap fun e =>
    match e with
    | .enqueueNews k _ => some k
    | .enqueueAlert k => some k
    | _ => none

/-- One cycle of the producer followed by the consumer draining the
queue it filled: the producer runs to completion first (single-threaded
asyncio; `queue.put` on an unbounded queue never suspends, and the
worker only runs once the loop body reaches `asyncio.sleep`). -/
def systemTrace (pub : Nat → Nat → Outcome) (delay : ℚ) (st : BotState)
    (c : CycleInput) : List Ev :=
  let r := runCycle st c
  r.2 ++ (workerTrace pub delay (enqueuedKeys r.2) 0 0).1.map
    (fun e => Ev.attempt e.key e.out)

/-! ## Trace predicates and the guarded-record invariant -/

/-- News enqueue events for dedup key `k`. -/
def pNews (k : String) : Ev → Bool
  | .enqueueNews k0 _ => decide (k0 = k)
  | _ => false

/-- Alert enqueue events for alert key `k`. -/
def pAlert (k : String) : Ev → Bool
  | .enqueueAlert k0 => decide (k0 = k)
  | _ => false

/-- Dedup-record writes (`mark_sent` / `set_alert_sent`). -/
def isMarkEv : Ev → Bool
  | .markSent _ => true
  | .setAlertSent _ => true
  | _ => false

/-- Publisher calls (`bot.send_message`). -/
def isAttemptEv : Ev → Bool
  | .attempt _ _ => true
  | _ => false

/-- The successful Publisher calls of a consumer trace, in order. -/
def succEvents (tr : List TEv) : List TEv :=
  tr.filter (fun e => decide (e.out = .success))

/-- The shape shared by every guarded enqueue-then-record step of the
loop body, for the events counted by `p` and the recorded-key observer
`mem`: the step emits at most one counted event, none when the key is
already recorded, recording is never undone, and a counted event leaves
the key recorded.  Composing steps of this shape yields the global
at-most-once enqueue invariants. -/
def StepOk (p : Ev → Bool) (mem : BotState → Bool)
    (st st' : BotState) (evs : List Ev) : Prop :=
  evs.countP p ≤ 1 ∧
  (mem st = true → evs.countP p = 0) ∧
  (mem st = true → mem st' = true) ∧
  (0 < evs.countP p → mem st' = true)

/-! ## Concrete inputs used by witnesses and counterexamples -/

/-- An item whose classified strength is the lowest tier
(`"low impact"` is a `low_kw` keyword and matches nothing stronger). -/
def itemLow : Item :=
  { id := "kL", title := "low impact", summary := "", source := "s",
    published := 0 }

/-- A neutral item. -/
def itemPlain : Item :=
  { id := "k0", title := "hello", summary := "", source := "s",
    published := 0 }

/-- One cycle that fetches just `itemPlain` and sees no events. -/
def cycPlain : CycleInput :=
  { events := [], now := 0, items := [itemPlain], wall := 0 }

/-- A state in which `itemPlain`-like key `"k0"` is already recorded as
sent. -/
def stSent0 : BotState := ⟨[("k0", 7)], []⟩

/-- A high-impact calendar event at `dt = 3600` seconds. -/
def evHigh : CalEvent :=
  { id := "e1", title := "NFP", currency := some "USD", country := none,
    dt := 3600, impact := "high", source := "cal" }

/-- Three scheduler ticks around the 30-minute window of `evHigh`
(`[1800, 1860]`), the third after the clock jumped backwards into the
window again. -/
def cycsBackClock : List CycleInput :=
  [ { events := [evHigh], now := 1800, items := [], wall := 0 },
    { events := [evHigh], now := 1900, items := [], wall := 60 },
    { events := [evHigh], now := 1810, items := [], wall := 120 } ]

/-- A state in which the 30-minute alert key of `evHigh` is already
recorded. -/
def stAlertPre : BotState := ⟨[], [("e1_a30", 0)]⟩

/-- A Publisher that always fails with an unclassified error. -/
def pubFatal : Nat → Nat → Outcome := fun _ _ => .otherErr

/-- A Publisher that always succeeds. -/
def pubOk : Nat → Nat → Outcome := fun _ _ => .success

/-- A Publisher for which the first queued message is poison (every
attempt raises an unclassified error) and every later message succeeds. -/
def pubPoison0 : Nat → Nat → Outcome :=
  fun i _ => if i = 0 then .otherErr else .success

/-- A per-message oracle: `retry-after 5` on the first attempt, then
success. -/
def pubRetryThenOk : Nat → Outcome :=
  fun a => if a = 0 then .retryAfter 5 else .success

/-- A per-message oracle that always answers `retry-after 5`. -/
def pubAlwaysRetry : Nat → Outcome := fun _ => .retryAfter 5

/-! ## Dictionary and state lemmas -/

theorem dictHas_dictSet (d : List (String × Nat)) (k k' : String) (v : Nat) :
    dictHas (dictSet d k v) k' = (decide (k = k') || dictHas d k') := by
  induction d with
  | nil => simp [dictHas, dictSet]
  | cons p rest ih =>
    obtain ⟨k0, v0⟩ := p
    by_cases h : k0 = k
    · subst h
      by_cases h' : k0 = k' <;> simp [dictHas, dictSet, h']
    · simp only [dictSet, if_neg h]
      simp only [dictHas, List.any_cons] at ih ⊢
      rw [ih, Bool.or_left_comm]

theorem is_sent_mark_sent (st : BotState) (k k' : String) (t : Nat) :
    is_sent (mark_sent st k t) k' = (decide (k = k') || is_sent st k') := by
  simp [is_sent, mark_sent, dictHas_dictSet]

theorem is_alert_sent_set (st : BotState) (k k' : String) (t : Nat) :
    is_alert_sent (set_alert_sent st k t) k'
      = (decide (k = k') || is_alert_sent st k') := by
  simp [is_alert_sent, set_alert_sent, dictHas_dictSet]

theorem mark_sent_alerts (st : BotState) (k : String) (t : Nat) :
    (mark_sent st k t).alerts = st.alerts := rfl

theorem set_alert_sent_sent (st : BotState) (k : String) (t : Nat) :
    (set_alert_sent st k t).sent = st.sent := rfl

/-! ## The guarded-record invariant, composed along the loop -/

theorem stepOk_nil (p : Ev → Bool) (mem : BotState → Bool) (st : BotState) :
    StepOk p mem st st [] := by
  refine ⟨by simp, fun _ => by simp, fun h => h, fun h => absurd h (by simp)⟩

theorem stepOk_comp {p : Ev → Bool} {mem : BotState → Bool}
    {st st1 st2 : BotState} {e1 e2 : List Ev}
    (h1 : StepOk p mem st st1 e1) (h2 : StepOk p mem st1 st2 e2) :
    StepOk p mem st st2 (e1 ++ e2) := by
  obtain ⟨a1, b1, c1, d1⟩ := h1
  obtain ⟨a2, b2, c2, d2⟩ := h2
  have key : 0 < e1.countP p → e2.countP p = 0 := fun h => b2 (d1 h)
  refine ⟨?_, ?_, fun h => c2 (c1 h), ?_⟩ <;>
    simp only [List.countP_append]
  · rcases Nat.eq_zero_or_pos (e1.countP p) with h | h
    · omega
    · have := key h
      omega
  · intro h
    have := b1 h
    have := b2 (c1 h)
    omega
  · intro h
    rcases Nat.eq_zero_or_pos (e2.countP p) with h2' | h2'
    · exact c2 (d1 (by omega))
    · exact d2 h2'

theorem stepOk_processList {α : Type} {p : Ev → Bool} {mem : BotState → Bool}
    {f : BotState → α → BotState × List Ev}
    (hf : ∀ st x, StepOk p mem st (f st x).1 (f st x).2) :
    ∀ (xs : List α) (st : BotState),
      StepOk p mem st (processList f st xs).1 (processList f st xs).2 := by
  intro xs
  induction xs with
  | nil => intro st; exact stepOk_nil p mem st
  | cons x xs ih =>
    intro st
    exact stepOk_comp (hf st x) (ih (f st x).1)

/-- `processNewsItem` is a guarded news enqueue for every key. -/
theorem newsItem_stepOk_sent (k : String) (st : BotState) (t : Nat)
    (it : Item) :
    StepOk (pNews k) (fun s => is_sent s k) st
      (processNewsItem st t it).1 (processNewsItem st t it).2 := by
  by_cases h : is_sent st it.id
  · simp only [processNewsItem, h, if_pos]
    exact stepOk_nil _ _ st
  · simp only [processNewsItem, h, Bool.false_eq_true, if_neg,
      not_false_eq_true]
    by_cases hk : it.id = k
    · subst hk
      refine ⟨?_, fun hmem => absurd hmem h, fun hmem => absurd hmem h, fun _ => ?_⟩
      · simp [pNews, List.countP_cons]
      · simp [is_sent_mark_sent]
    · have hcnt :
          ([Ev.enqueueNews it.id (detect_strength (some (newsText it))),
            Ev.markSent it.id].countP (pNews k)) = 0 := by
        simp [pNews, List.countP_cons, hk]
      refine ⟨by omega, fun _ => hcnt, fun hmem => ?_, fun hpos => ?_⟩
      · simp [is_sent_mark_sent, hmem]
      · omega

/-- `alertStep` never touches the `"sent"` namespace nor enqueues news. -/
theorem alertStep_stepOk_sent (k : String) (st : BotState) (key : String)
    (due : Bool) (t : Nat) :
    StepOk (pNews k) (fun s => is_sent s k) st
      (alertStep st key due t).1 (alertStep st key due t).2 := by
  unfold alertStep
  split
  · refine ⟨?_, ?_, ?_, ?_⟩ <;>
      simp [pNews, is_sent, set_alert_sent_sent]
  · exact stepOk_nil _ _ st

theorem processEvent_stepOk_sent (k : String) (st : BotState)
    (ev : CalEvent) (now : Int) (t : Nat) :
    StepOk (pNews k) (fun s => is_sent s k) st
      (processEvent st ev now t).1 (processEvent st ev now t).2 := by
  unfold processEvent
  split
  · exact stepOk_nil _ _ st
  · exact stepOk_comp (alertStep_stepOk_sent k st _ _ t)
      (alertStep_stepOk_sent k _ _ _ t)

/-- `alertStep` is a guarded alert enqueue for every key. -/
theorem alertStep_stepOk_alert (k : String) (st : BotState) (key : String)
    (due : Bool) (t : Nat) :
    StepOk (pAlert k) (fun s => is_alert_sent s k) st
      (alertStep st key due t).1 (alertStep st key due t).2 := by
  by_cases hc : (due && !is_alert_sent st key) = true
  · have hna : is_alert_sent st key = false := by
      revert hc
      cases is_alert_sent st key <;> simp
    simp only [alertStep, hc, if_pos]
    by_cases hk : key = k
    · subst hk
      refine ⟨?_, fun hmem => ?_, fun hmem => ?_, fun _ => ?_⟩
      · simp [pAlert, List.countP_cons]
      · exact absurd hmem (by simp [hna])
      · exact absurd hmem (by simp [hna])
      · simp [is_alert_sent_set]
    · have hcnt :
          ([Ev.enqueueAlert key, Ev.setAlertSent key].countP (pAlert k)) = 0 := by
        simp [pAlert, List.countP_cons, hk]
      refine ⟨by omega, fun _ => hcnt, fun hmem => ?_, fun hpos => ?_⟩
      · simp [is_alert_sent_set, hmem]
      · omega
  · simp only [alertStep, hc, if_neg, Bool.false_eq_true, not_false_eq_true]
    exact stepOk_nil _ _ st

theorem processEvent_stepOk_alert (k : String) (st : BotState)
    (ev : CalEvent) (now : Int) (t : Nat) :
    StepOk (pAlert k) (fun s => is_alert_sent s k) st
      (processEvent st ev now t).1 (processEvent st ev now t).2 := by
  unfold processEvent
  split
  · exact stepOk_nil _ _ st
  · exact stepOk_comp (alertStep_stepOk_alert k st _ _ t)
      (alertStep_stepOk_alert k _ _ _ t)

/-- `processNewsItem` never touches the `"alerts"` namespace nor
enqueues alerts. -/
theorem newsItem_stepOk_alert (k : String) (st : BotState) (t : Nat)
    (it : Item) :
    StepOk (pAlert k) (fun s => is_alert_sent s k) st
      (processNewsItem st t it).1 (processNewsItem st t it).2 := by
  by_cases h : is_sent st it.id
  · simp only [processNewsItem, h, if_pos]
    exact stepOk_nil _ _ st
  · simp only [processNewsItem, h, Bool.false_eq_true, if_neg,
      not_false_eq_true]
    refine ⟨?_, ?_, ?_, ?_⟩ <;>
      simp [pAlert, is_alert_sent, mark_sent_alerts]

theorem runCycle_stepOk_sent (k : String) (st : BotState) (c : CycleInput) :
    StepOk (pNews k) (fun s => is_sent s k) st
      (runCycle st c).1 (runCycle st c).2 := by
  unfold runCycle
  exact stepOk_comp
    (stepOk_processList (fun s ev => processEvent_stepOk_sent k s ev c.now c.wall)
      c.events st)
    (stepOk_processList (fun s it => newsItem_stepOk_sent k s c.wall it)
      (c.items.take 5) _)

theorem runCycle_stepOk_alert (k : String) (st : BotState) (c : CycleInput) :
    StepOk (pAlert k) (fun s => is_alert_sent s k) st
      (runCycle st c).1 (runCycle st c).2 := by
  unfold runCycle
  exact stepOk_comp
    (stepOk_processList (fun s ev => processEvent_stepOk_alert k s ev c.now c.wall)
      c.events st)
    (stepOk_processList (fun s it => newsItem_stepOk_alert k s c.wall it)
      (c.items.take 5) _)

theorem runBot_stepOk_sent (k : String) (st : BotState)
    (cs : List CycleInput) :
    StepOk (pNews k) (fun s => is_sent s k) st
      (runBot st cs).1 (runBot st cs).2 :=
  stepOk_processList (fun s c => runCycle_stepOk_sent k s c) cs st

theorem runBot_stepOk_alert (k : String) (st : BotState)
    (cs : List CycleInput) :
    StepOk (pAlert k) (fun s => is_alert_sent s k) st
      (runBot st cs).1 (runBot st cs).2 :=
  stepOk_processList (fun s c => runCycle_stepOk_alert k s c) cs st

/-! ## Claim theorems: dedup invariants, state loading, classifier -/

/-- C7: over any run of the main loop from any state, a news fingerprint
already recorded in the `"sent"` namespace is skipped without
enqueueing (zero news enqueues for it), and any fingerprint is enqueued
at most once across all cycles.  Fingerprints are
`short_hash(source, title, str(pub_dt))`, so repeated cycles feeding
identical (source, title, published-time) entries carry the same key
`k`. -/
theorem claim7_news_dedup_at_most_once (st : BotState)
    (cs : List CycleInput) (k : String) :
    (is_sent st k = true → (runBot st cs).2.countP (pNews k) = 0) ∧
    (runBot st cs).2.countP (pNews k) ≤ 1 := by
  obtain ⟨a, b, _, _⟩ := runBot_stepOk_sent k st cs
  exact ⟨b, a⟩

/-- Witness for C7: a cycle re-fetching the already-recorded item `"k0"`
enqueues nothing for it. -/
theorem claim7_witness :
    (runBot stSent0 [cycPlain]).2.countP (pNews "k0") = 0 :=
  (claim7_news_dedup_at_most_once stSent0 [cycPlain] "k0").1 (by decide)

/-- C8: over any run — the per-tick clock values are arbitrary, so
backward clock adjustments re-entering a due window are included — an
alert key already recorded is never enqueued again, and any alert key is
enqueued at most once no matter how many ticks fall inside its window:
the recorded key, not the time comparison, decides re-firing. -/
theorem claim8_alert_dedup_at_most_once (st : BotState)
    (cs : List CycleInput) (k : String) :
    (is_alert_sent st k = true → (runBot st cs).2.countP (pAlert k) = 0) ∧
    (runBot st cs).2.countP (pAlert k) ≤ 1 := by
  obtain ⟨a, b, _, _⟩ := runBot_stepOk_alert k st cs
  exact ⟨b, a⟩

/-- Witness for C8: three ticks around the 30-minute window of `evHigh`,
the last after the clock jumped backwards into the window, starting from
a state with the alert key recorded: no enqueue at all. -/
theorem claim8_witness :
    (runBot stAlertPre cycsBackClock).2.countP (pAlert "e1_a30") = 0 :=
  (claim8_alert_dedup_at_most_once stAlertPre cycsBackClock "e1_a30").1
    (by decide)

/-- Counterexample for C9: `load_state` swallows any read or parse
exception and returns the empty state, exactly as for a missing file, so
an existing but unreadable or unparsable state file IS treated as
"nothing recorded yet": afterwards every key (e.g. `"any"`) reads as
unsent. -/
theorem claim9_cex :
    load_state ReadResult.failure = emptyState ∧
    is_sent (load_state ReadResult.failure) "any" = false ∧
    is_alert_sent (load_state ReadResult.failure) "any" = false := by
  exact ⟨rfl, by decide, by decide⟩

/-- C9 amended: a read or parse failure of the state file yields the
empty state — indistinguishable from the first-run missing-file case, so
the program proceeds as if nothing had ever been recorded; a genuinely
missing store yields the empty state without error, and a successful
parse is returned as-is. -/
theorem claim9_amended :
    load_state ReadResult.failure = emptyState ∧
    load_state ReadResult.missing = emptyState ∧
    ∀ st, load_state (ReadResult.ok st) = st :=
  ⟨rfl, rfl, fun _ => rfl⟩

/-- C10: the classifiers are total over every optional string (the
`(text or "")` coalescing handles `None` and empty input) and always
land in their fixed three-value sets; with no keyword match,
`detect_strength` defaults to the medium tier and `detect_sentiment` to
neutral. -/
theorem claim10_classifier_total (text : Option String) :
    (detect_strength text = "عالي" ∨ detect_strength text = "متوسط" ∨
      detect_strength text = "منخفض") ∧
    (detect_sentiment text = "إيجابي" ∨ detect_sentiment text = "سلبي" ∨
      detect_sentiment text = "محايد") ∧
    (kwAny (py_lower (py_or_empty text)) strong_kw = false →
      kwAny (py_lower (py_or_empty text)) medium_kw = false →
      kwAny (py_lower (py_or_empty text)) low_kw = false →
      detect_strength text = "متوسط") ∧
    (kwAny (py_lower (py_or_empty text)) pos_kw = false →
      kwAny (py_lower (py_or_empty text)) neg_kw = false →
      detect_sentiment text = "محايد") := by
  refine ⟨?_, ?_, fun h1 h2 h3 => ?_, fun h1 h2 => ?_⟩
  · by_cases h1 : kwAny (py_lower (py_or_empty text)) strong_kw = true
    · simp [detect_strength, h1]
    · by_cases h2 : kwAny (py_lower (py_or_empty text)) medium_kw = true
      · simp [detect_strength, h1, h2]
      · by_cases h3 : kwAny (py_lower (py_or_empty text)) low_kw = true
        · simp [detect_strength, h1, h2, h3]
        · simp [detect_strength, h1, h2, h3]
  · by_cases h1 : kwAny (py_lower (py_or_empty text)) pos_kw = true
    · simp [detect_sentiment, h1]
    · by_cases h2 : kwAny (py_lower (py_or_empty text)) neg_kw = true
      · simp [detect_sentiment, h1, h2]
      · simp [detect_sentiment, h1, h2]
  · simp [detect_strength, h1, h2, h3]
  · simp [detect_sentiment, h1, h2]

/-- Witness for C10: concrete no-keyword inputs default to medium
strength and neutral sentiment. -/
theorem claim10_witness :
    detect_strength (some "nothing to see") = "متوسط" ∧
    detect_sentiment none = "محايد" :=
  ⟨(claim10_classifier_total (some "nothing to see")).2.2.1
      (by decide) (by decide) (by decide),
    (claim10_classifier_total none).2.2.2 (by decide) (by decide)⟩

/-- Counterexample for C2: `itemLow` classifies to the lowest strength
tier (`"منخفض"`), yet the ingestion loop enqueues it — the loop applies
no strength filter at all (there is no minimum-tier configuration in the
code; strength only decorates the rendered message). -/
theorem claim2_cex :
    Ev.enqueueNews "kL" "منخفض" ∈ (processNewsItem emptyState 0 itemLow).2 ∧
    detect_strength (some (newsText itemLow)) = "منخفض" := by
  exact ⟨by decide, by decide⟩

/-- C2 amended: whether an item reaches the queue depends only on the
dedup check — an item is enqueued (with whatever strength the classifier
assigned) iff its fingerprint is not yet recorded; no strength tier is
ever dropped. -/
theorem claim2_amended (st : BotState) (t : Nat) (it : Item) :
    (∃ s, Ev.enqueueNews it.id s ∈ (processNewsItem st t it).2) ↔
      is_sent st it.id = false := by
  by_cases h : is_sent st it.id
  · simp [processNewsItem, h]
  · simp [processNewsItem, h]

/-- Witness for C2 amended: the unrecorded lowest-tier item is enqueued. -/
theorem claim2_witness :
    ∃ s, Ev.enqueueNews itemLow.id s ∈ (processNewsItem emptyState 0 itemLow).2 :=
  (claim2_amended emptyState 0 itemLow).mpr (by decide)

/-! ## Producer events versus consumer events (claim C1) -/

theorem processList_forall {α : Type} {Q : Ev → Prop}
    {f : BotState → α → BotState × List Ev}
    (hf : ∀ st x, ∀ e ∈ (f st x).2, Q e) :
    ∀ (xs : List α) (st : BotState), ∀ e ∈ (processList f st xs).2, Q e := by
  intro xs
  induction xs with
  | nil => intro st e he; simp [processList] at he
  | cons x xs ih =>
    intro st e he
    simp only [processList, List.mem_append] at he
    rcases he with he | he
    · exact hf st x e he
    · exact ih _ e he

theorem alertStep_no_attempt (st : BotState) (key : String) (due : Bool)
    (t : Nat) : ∀ e ∈ (alertStep st key due t).2, isAttemptEv e = false := by
  intro e he
  unfold alertStep at he
  split at he <;> simp at he
  rcases he with rfl | rfl <;> rfl

theorem processEvent_no_attempt (st : BotState) (ev : CalEvent) (now : Int)
    (t : Nat) : ∀ e ∈ (processEvent st ev now t).2, isAttemptEv e = false := by
  intro e he
  unfold processEvent at he
  split at he
  · simp at he
  · simp only [List.mem_append] at he
    rcases he with he | he
    · exact alertStep_no_attempt _ _ _ _ e he
    · exact alertStep_no_attempt _ _ _ _ e he

theorem processNewsItem_no_attempt (st : BotState) (t : Nat) (it : Item) :
    ∀ e ∈ (processNewsItem st t it).2, isAttemptEv e = false := by
  intro e he
  unfold processNewsItem at he
  split at he
  · simp at he
  · simp at he
    rcases he with rfl | rfl <;> rfl

theorem runCycle_no_attempt (st : BotState) (c : CycleInput) :
    ∀ e ∈ (runCycle st c).2, isAttemptEv e = false := by
  intro e he
  unfold runCycle at he
  simp only [List.mem_append] at he
  rcases he with he | he
  · exact processList_forall
      (fun s ev => processEvent_no_attempt s ev c.now c.wall) c.events st e he
  · exact processList_forall
      (fun s it => processNewsItem_no_attempt s c.wall it) _ _ e he

/-- C1 amended: in a cycle followed by the consumer draining its queue,
every dedup-record write (`mark_sent` / `set_alert_sent`) happens
strictly before every `bot.send_message` attempt: the main loop records
a key immediately after enqueueing the message, not after (or because)
its Publisher call succeeded. -/
theorem claim1_amended (pub : Nat → Nat → Outcome) (delay : ℚ)
    (st : BotState) (c : CycleInput) (p1 p2 : Nat)
    (h1 : p1 < (systemTrace pub delay st c).length)
    (h2 : p2 < (systemTrace pub delay st c).length)
    (hm : isMarkEv ((systemTrace pub delay st c).get ⟨p1, h1⟩) = true)
    (ha : isAttemptEv ((systemTrace pub delay st c).get ⟨p2, h2⟩) = true) :
    p1 < p2 := by
  have hdrain : ∀ e ∈ (workerTrace pub delay
      (enqueuedKeys (runCycle st c).2) 0 0).1.map
      (fun e => Ev.attempt e.key e.out),
      isMarkEv e = false ∧ isAttemptEv e = true := by
    intro e he
    rcases List.mem_map.mp he with ⟨e0, _, rfl⟩
    exact ⟨rfl, rfl⟩
  have hp1 : p1 < (runCycle st c).2.length := by
    by_contra hno
    push_neg at hno
    have hget : (systemTrace pub delay st c).get ⟨p1, h1⟩ ∈
        (workerTrace pub delay (enqueuedKeys (runCycle st c).2) 0 0).1.map
          (fun e => Ev.attempt e.key e.out) := by
      have h1' := h1
      simp only [systemTrace, List.length_append] at h1'
      rw [show (systemTrace pub delay st c).get ⟨p1, h1⟩ =
          ((workerTrace pub delay (enqueuedKeys (runCycle st c).2) 0 0).1.map
            (fun e => Ev.attempt e.key e.out)).get
            ⟨p1 - (runCycle st c).2.length, by omega⟩ from ?_]
      · exact List.get_mem _ _ _
      · simp only [systemTrace, List.get_eq_getElem]
        exact List.getElem_append_right hno
    have hf := (hdrain _ hget).1
    rw [hf] at hm
    exact absurd hm (by decide)
  have hp2 : ¬ p2 < (runCycle st c).2.length := by
    intro hlt
    have hget : (systemTrace pub delay st c).get ⟨p2, h2⟩ ∈
        (runCycle st c).2 := by
      rw [show (systemTrace pub delay st c).get ⟨p2, h2⟩ =
          (runCycle st c).2.get ⟨p2, hlt⟩ from ?_]
      · exact List.get_mem _ _ _
      · simp only [systemTrace, List.get_eq_getElem]
        exact List.getElem_append_left hlt
    have hf := runCycle_no_attempt st c _ hget
    rw [hf] at ha
    exact absurd ha (by decide)
  omega

/-- Counterexample for C1: with a Publisher that fails every attempt,
the cycle still writes the dedup record (`mark_sent "k0"` is in the
trace) although no `bot.send_message` call ever returned success — so
the record is written before (indeed without) any successful Publisher
call. -/
theorem claim1_cex :
    Ev.markSent "k0" ∈ systemTrace pubFatal 0 emptyState cycPlain ∧
    ∀ e ∈ systemTrace pubFatal 0 emptyState cycPlain,
      e ≠ Ev.attempt "k0" Outcome.success := by
  exact ⟨by decide, by decide⟩

/-- Witness for C1 amended: in the concrete success-path trace
`[enqueueNews, markSent, attempt-success]` the record at position 1
precedes the attempt at position 2. -/
theorem claim1_witness : (1 : Nat) < 2 :=
  claim1_amended pubOk 0 emptyState cycPlain 1 2 (by decide) (by decide)
    (by decide) (by decide)

/-! ## Structure of `_send_with_retry` blocks -/

theorem sendRetry_mem_idx (pub1 : Nat → Outcome) (i : Nat) (key : String) :
    ∀ (fuel a : Nat) (t : ℚ),
      ∀ e ∈ (sendRetryTrace pub1 i key fuel a t).1, e.idx = i := by
  intro fuel
  induction fuel with
  | zero => intro a t e he; simp [sendRetryTrace] at he
  | succ m ih =>
    intro a t e he
    cases hp : pub1 a <;> simp only [sendRetryTrace, hp] at he
    · simp at he
      subst he
      rfl
    all_goals
      rcases List.mem_cons.mp he with rfl | he'
    · rfl
    · exact ih _ _ e he'
    · rfl
    · exact ih _ _ e he'
    · rfl
    · exact ih _ _ e he'

theorem sendRetry_len_le (pub1 : Nat → Outcome) (i : Nat) (key : String) :
    ∀ (fuel a : Nat) (t : ℚ),
      (sendRetryTrace pub1 i key fuel a t).1.length ≤ fuel := by
  intro fuel
  induction fuel with
  | zero => intro a t; simp [sendRetryTrace]
  | succ m ih =>
    intro a t
    cases hp : pub1 a
    · simp only [sendRetryTrace, hp, List.length_singleton]
      omega
    all_goals
      simp only [sendRetryTrace, hp, List.length_cons]
    all_goals
      exact Nat.succ_le_succ (ih _ _)

theorem sendRetry_len_pos (pub1 : Nat → Outcome) (i : Nat) (key : String)
    (m a : Nat) (t : ℚ) :
    0 < (sendRetryTrace pub1 i key (m + 1) a t).1.length := by
  cases hp : pub1 a <;> simp [sendRetryTrace, hp]

theorem sendRetry_time (pub1 : Nat → Outcome) (i : Nat) (key : String) :
    ∀ (fuel a : Nat) (t : ℚ),
      (∀ e ∈ (sendRetryTrace pub1 i key fuel a t).1,
        t ≤ e.time ∧ e.time ≤ (sendRetryTrace pub1 i key fuel a t).2.1) ∧
      t ≤ (sendRetryTrace pub1 i key fuel a t).2.1 := by
  intro fuel
  induction fuel with
  | zero =>
    intro a t
    exact ⟨fun e he => by simp [sendRetryTrace] at he, le_refl t⟩
  | succ m ih =>
    intro a t
    cases hp : pub1 a with
    | success =>
      simp only [sendRetryTrace, hp]
      constructor
      · intro e he
        simp at he
        subst he
        exact ⟨le_refl t, le_refl t⟩
      · exact le_refl t
    | retryAfter n =>
      simp only [sendRetryTrace, hp]
      have hn : (0 : ℚ) ≤ (n : ℚ) := Nat.cast_nonneg n
      obtain ⟨ihm, ihe⟩ := ih (a + 1) (t + ((n : ℚ) + 1))
      refine ⟨?_, le_trans (by linarith) ihe⟩
      intro e he
      rcases List.mem_cons.mp he with rfl | he'
      · exact ⟨le_refl t, le_trans (by linarith) ihe⟩
      · obtain ⟨hl, hr⟩ := ihm e he'
        exact ⟨le_trans (by linarith) hl, hr⟩
    | netErr =>
      simp only [sendRetryTrace, hp]
      obtain ⟨ihm, ihe⟩ := ih (a + 1) (t + 3)
      refine ⟨?_, le_trans (by linarith) ihe⟩
      intro e he
      rcases List.mem_cons.mp he with rfl | he'
      · exact ⟨le_refl t, le_trans (by linarith) ihe⟩
      · obtain ⟨hl, hr⟩ := ihm e he'
        exact ⟨le_trans (by linarith) hl, hr⟩
    | otherErr =>
      simp only [sendRetryTrace, hp]
      obtain ⟨ihm, ihe⟩ := ih (a + 1) (t + 2)
      refine ⟨?_, le_trans (by linarith) ihe⟩
      intro e he
      rcases List.mem_cons.mp he with rfl | he'
      · exact ⟨le_refl t, le_trans (by linarith) ihe⟩
      · obtain ⟨hl, hr⟩ := ihm e he'
        exact ⟨le_trans (by linarith) hl, hr⟩

theorem sendRetry_succ_le_one (pub1 : Nat → Outcome) (i : Nat) (key : String) :
    ∀ (fuel a : Nat) (t : ℚ),
      (succEvents (sendRetryTrace pub1 i key fuel a t).1).length ≤ 1 := by
  intro fuel
  induction fuel with
  | zero => intro a t; simp [sendRetryTrace, succEvents]
  | succ m ih =>
    intro a t
    cases hp : pub1 a <;> simp only [sendRetryTrace, hp]
    · simp [succEvents]
    all_goals
      simp only [succEvents, List.filter_cons]
    all_goals
      simp only [show ∀ x : TEv, decide (x.out = Outcome.success) =
        (x.out == Outcome.success) from fun x => rfl]
    all_goals
      exact ih _ _

theorem sendRetry_first_time (pub1 : Nat → Outcome) (i : Nat) (key : String) :
    ∀ (fuel a : Nat) (t : ℚ) (e : TEv),
      ((sendRetryTrace pub1 i key fuel a t).1)[0]? = some e → e.time = t := by
  intro fuel a t e he
  cases fuel with
  | zero => simp [sendRetryTrace] at he
  | succ m =>
    cases hp : pub1 a <;> simp [sendRetryTrace, hp] at he <;>
      simp [← he]

theorem sendRetry_success_head (pub1 : Nat → Outcome) (i : Nat) (key : String)
    (m a : Nat) (t : ℚ) (hp : pub1 a = Outcome.success) :
    (sendRetryTrace pub1 i key (m + 1) a t).1 = [⟨t, i, key, .success⟩] := by
  simp [sendRetryTrace, hp]

/-! ## Structure of the `_worker` trace -/

theorem worker_mem_idx_ge (pub : Nat → Nat → Outcome) (delay : ℚ) :
    ∀ (msgs : List String) (i : Nat) (t : ℚ),
      ∀ e ∈ (workerTrace pub delay msgs i t).1, i ≤ e.idx := by
  intro msgs
  induction msgs with
  | nil => intro i t e he; simp [workerTrace] at he
  | cons k ks ih =>
    intro i t e he
    simp only [workerTrace, List.mem_append] at he
    rcases he with he | he
    · exact le_of_eq (sendRetry_mem_idx (pub i) i k 6 0 t e he).symm
    · exact le_trans (Nat.le_succ i) (ih (i + 1) _ e he)

theorem worker_time_ge (pub : Nat → Nat → Outcome) (delay : ℚ)
    (hd : 0 ≤ delay) :
    ∀ (msgs : List String) (i : Nat) (t : ℚ),
      ∀ e ∈ (workerTrace pub delay msgs i t).1, t ≤ e.time := by
  intro msgs
  induction msgs with
  | nil => intro i t e he; simp [workerTrace] at he
  | cons k ks ih =>
    intro i t e he
    simp only [workerTrace, List.mem_append] at he
    rcases he with he | he
    · exact ((sendRetry_time (pub i) i k 6 0 t).1 e he).1
    · have hstep : t ≤ (sendRetryTrace (pub i) i k 6 0 t).2.1 + delay := by
        have := (sendRetry_time (pub i) i k 6 0 t).2
        linarith
      exact le_trans hstep (ih (i + 1) _ e he)

/-! ## Claim theorems: ordering, retry bound, backoff, spacing -/

/-- C3: the consumer attempts messages in exact enqueue order — the
queue-position indices of the Publisher attempts form a nondecreasing
sequence, so every attempt (and hence the whole success-or-drop retry
cycle) of an earlier-enqueued message precedes every attempt of a
later-enqueued one; each retry cycle is run to completion before the
next message is taken. -/
theorem claim3_fifo_order (pub : Nat → Nat → Outcome) (delay : ℚ)
    (msgs : List String) (i : Nat) (t : ℚ) :
    List.Pairwise (· ≤ ·)
      ((workerTrace pub delay msgs i t).1.map TEv.idx) := by
  induction msgs generalizing i t with
  | nil => simp [workerTrace]
  | cons k ks ih =>
    simp only [workerTrace, List.map_append]
    rw [List.pairwise_append]
    refine ⟨?_, ih (i + 1) _, ?_⟩
    · refine List.pairwise_of_forall_mem_list ?_
      intro x hx y hy
      rcases List.mem_map.mp hx with ⟨e, he, rfl⟩
      rcases List.mem_map.mp hy with ⟨f, hf, rfl⟩
      rw [sendRetry_mem_idx (pub i) i k 6 0 t e he,
        sendRetry_mem_idx (pub i) i k 6 0 t f hf]
    · intro x hx y hy
      rcases List.mem_map.mp hx with ⟨e, he, rfl⟩
      rcases List.mem_map.mp hy with ⟨f, hf, rfl⟩
      rw [sendRetry_mem_idx (pub i) i k 6 0 t e he]
      exact le_trans (Nat.le_succ i) (worker_mem_idx_ge pub delay ks (i + 1) _ f hf)

theorem worker_countP_le_six (pub : Nat → Nat → Outcome) (delay : ℚ) :
    ∀ (msgs : List String) (i0 : Nat) (t : ℚ) (i : Nat),
      (workerTrace pub delay msgs i0 t).1.countP
        (fun e => decide (e.idx = i)) ≤ 6 := by
  intro msgs
  induction msgs with
  | nil => intro i0 t i; simp [workerTrace]
  | cons k ks ih =>
    intro i0 t i
    simp only [workerTrace, List.countP_append]
    by_cases hi : i = i0
    · subst hi
      have hb : (sendRetryTrace (pub i) i k 6 0 t).1.countP
          (fun e => decide (e.idx = i)) ≤ 6 :=
        le_trans (List.countP_le_length _) (sendRetry_len_le (pub i) i k 6 0 t)
      have hr : (workerTrace pub delay ks (i + 1)
          ((sendRetryTrace (pub i) i k 6 0 t).2.1 + delay)).1.countP
          (fun e => decide (e.idx = i)) = 0 := by
        refine List.countP_eq_zero.mpr ?_
        intro e he
        have := worker_mem_idx_ge pub delay ks (i + 1) _ e he
        simp only [decide_eq_true_eq]
        omega
      omega
    · have hb : (sendRetryTrace (pub i0) i0 k 6 0 t).1.countP
          (fun e => decide (e.idx = i)) = 0 := by
        refine List.countP_eq_zero.mpr ?_
        intro e he
        have := sendRetry_mem_idx (pub i0) i0 k 6 0 t e he
        simp only [decide_eq_true_eq]
        omega
      have hr := ih (i0 + 1) ((sendRetryTrace (pub i0) i0 k 6 0 t).2.1 + delay) i
      omega

theorem worker_block_exists (pub : Nat → Nat → Outcome) (delay : ℚ) :
    ∀ (msgs : List String) (i0 : Nat) (t : ℚ) (i : Nat),
      i0 ≤ i → i < i0 + msgs.length →
      (∃ e ∈ (workerTrace pub delay msgs i0 t).1, e.idx = i) ∧
      (pub i 0 = Outcome.success →
        ∃ e ∈ (workerTrace pub delay msgs i0 t).1,
          e.idx = i ∧ e.out = Outcome.success) := by
  intro msgs
  induction msgs with
  | nil => intro i0 t i hlo hhi; simp at hhi; omega
  | cons k ks ih =>
    intro i0 t i hlo hhi
    by_cases hi : i = i0
    · subst hi
      constructor
      · have hpos := sendRetry_len_pos (pub i) i k 5 0 t
        obtain ⟨e, he⟩ := List.exists_mem_of_length_pos hpos
        refine ⟨e, ?_, sendRetry_mem_idx (pub i) i k 6 0 t e he⟩
        simp only [workerTrace, List.mem_append]
        exact Or.inl he
      · intro hs
        refine ⟨⟨t, i, k, .success⟩, ?_, rfl, rfl⟩
        simp only [workerTrace, List.mem_append]
        exact Or.inl (by
          rw [sendRetry_success_head (pub i) i k 5 0 t hs]
          exact List.mem_singleton_self _)
    · have hstep := ih (i0 + 1)
        ((sendRetryTrace (pub i0) i0 k 6 0 t).2.1 + delay) i
        (by omega) (by simp at hhi ⊢; omega)
      constructor
      · obtain ⟨e, he, hidx⟩ := hstep.1
        refine ⟨e, ?_, hidx⟩
        simp only [workerTrace, List.mem_append]
        exact Or.inr he
      · intro hs
        obtain ⟨e, he, hidx, hout⟩ := hstep.2 hs
        refine ⟨e, ?_, hidx, hout⟩
        simp only [workerTrace, List.mem_append]
        exact Or.inr he

/-- C4: for every queued message the consumer makes at most 6 Publisher
attempts (the `for _ in range(6)` bound, inside the 5-8 range the spec allows)
and `_send_with_retry` returns rather than raising, so every queued
message — also those enqueued after a poison message that fails all its
attempts — receives at least one attempt, and a message whose Publisher
answers success is delivered. -/
theorem claim4_retry_bounded_nonblocking (pub : Nat → Nat → Outcome)
    (delay : ℚ) (msgs : List String) (t : ℚ) (i : Nat)
    (hi : i < msgs.length) :
    ((workerTrace pub delay msgs 0 t).1.countP
      (fun e => decide (e.idx = i)) ≤ 6) ∧
    (∃ e ∈ (workerTrace pub delay msgs 0 t).1, e.idx = i) ∧
    (pub i 0 = Outcome.success →
      ∃ e ∈ (workerTrace pub delay msgs 0 t).1,
        e.idx = i ∧ e.out = Outcome.success) := by
  obtain ⟨h1, h2⟩ := worker_block_exists pub delay msgs 0 t i (Nat.zero_le i)
    (by omega)
  exact ⟨worker_countP_le_six pub delay msgs 0 t i, h1, h2⟩

/-- Witness for C4: message 0 is poison (always fatal), message 1
succeeds; the run makes at most 6 attempts for message 0 and still
delivers message 1. -/
theorem claim4_witness :
    ((workerTrace pubPoison0 0 ["x", "y"] 0 0).1.countP
      (fun e => decide (e.idx = 1)) ≤ 6) ∧
    (∃ e ∈ (workerTrace pubPoison0 0 ["x", "y"] 0 0).1, e.idx = 1) ∧
    (pubPoison0 1 0 = Outcome.success →
      ∃ e ∈ (workerTrace pubPoison0 0 ["x", "y"] 0 0).1,
        e.idx = 1 ∧ e.out = Outcome.success) :=
  claim4_retry_bounded_nonblocking pubPoison0 0 ["x", "y"] 0 1 (by decide)

theorem mem_of_getElem?_some {α : Type} {l : List α} {n : Nat} {a : α}
    (h : l[n]? = some a) : a ∈ l := by
  rcases List.getElem?_eq_some.mp h with ⟨hn, rfl⟩
  exact List.getElem_mem hn

theorem sendRetry_retryAfter_gap (pub1 : Nat → Outcome) (i : Nat)
    (key : String) :
    ∀ (fuel a : Nat) (t : ℚ) (p n : Nat) (e1 e2 : TEv),
      ((sendRetryTrace pub1 i key fuel a t).1)[p]? = some e1 →
      ((sendRetryTrace pub1 i key fuel a t).1)[p + 1]? = some e2 →
      e1.out = Outcome.retryAfter n →
      e2.time = e1.time + ((n : ℚ) + 1) := by
  intro fuel
  induction fuel with
  | zero =>
    intro a t p n e1 e2 h1 h2 ho
    simp [sendRetryTrace] at h1
  | succ m ih =>
    intro a t p n e1 e2 h1 h2 ho
    cases hp : pub1 a with
    | success =>
      rw [sendRetry_success_head pub1 i key m a t hp] at h2
      simp at h2
    | retryAfter n0 =>
      simp only [sendRetryTrace, hp] at h1 h2
      cases p with
      | zero =>
        simp only [List.getElem?_cons_zero] at h1
        obtain rfl := Option.some.inj h1
        simp only [List.getElem?_cons_succ] at h2
        have h2t := sendRetry_first_time pub1 i key m (a + 1)
          (t + ((n0 : ℚ) + 1)) e2 h2
        simp only at ho
        cases ho
        simpa using h2t
      | succ q =>
        simp only [List.getElem?_cons_succ] at h1 h2
        exact ih (a + 1) _ q n e1 e2 h1 h2 ho
    | netErr =>
      simp only [sendRetryTrace, hp] at h1 h2
      cases p with
      | zero =>
        simp only [List.getElem?_cons_zero] at h1
        obtain rfl := Option.some.inj h1
        simp at ho
      | succ q =>
        simp only [List.getElem?_cons_succ] at h1 h2
        exact ih (a + 1) _ q n e1 e2 h1 h2 ho
    | otherErr =>
      simp only [sendRetryTrace, hp] at h1 h2
      cases p with
      | zero =>
        simp only [List.getElem?_cons_zero] at h1
        obtain rfl := Option.some.inj h1
        simp at ho
      | succ q =>
        simp only [List.getElem?_cons_succ] at h1 h2
        exact ih (a + 1) _ q n e1 e2 h1 h2 ho

theorem sendRetry_allRetry (pub1 : Nat → Outcome) (i : Nat) (key : String)
    (hall : ∀ a, ∃ n, pub1 a = Outcome.retryAfter n) :
    ∀ (fuel a : Nat) (t : ℚ),
      (sendRetryTrace pub1 i key fuel a t).2.2 = false ∧
      (sendRetryTrace pub1 i key fuel a t).1.length = fuel := by
  intro fuel
  induction fuel with
  | zero => intro a t; simp [sendRetryTrace]
  | succ m ih =>
    intro a t
    obtain ⟨n, hn⟩ := hall a
    simp only [sendRetryTrace, hn]
    obtain ⟨h1, h2⟩ := ih (a + 1) (t + ((n : ℚ) + 1))
    exact ⟨h1, by simp [h2]⟩

/-- C5 amended: after a `RetryAfter n` answer the consumer sleeps
exactly `n + 1` seconds before the next attempt for the same message
(`int(e.retry_after) + 1`); however, a retry-after answer consumes the
same attempt budget as any other failure, so a message whose every
attempt draws retry-after is dropped after the 6 attempts — backoff
responses alone DO cause a drop. -/
theorem claim5_amended_backoff :
    (∀ (pub1 : Nat → Outcome) (i : Nat) (key : String) (fuel a : Nat)
      (t : ℚ) (p n : Nat) (e1 e2 : TEv),
      ((sendRetryTrace pub1 i key fuel a t).1)[p]? = some e1 →
      ((sendRetryTrace pub1 i key fuel a t).1)[p + 1]? = some e2 →
      e1.out = Outcome.retryAfter n →
      e2.time = e1.time + ((n : ℚ) + 1)) ∧
    (∀ (pub1 : Nat → Outcome) (i : Nat) (key : String) (t : ℚ),
      (∀ a, ∃ n, pub1 a = Outcome.retryAfter n) →
      (sendRetryTrace pub1 i key 6 0 t).2.2 = false ∧
      ((sendRetryTrace pub1 i key 6 0 t).1).length = 6) :=
  ⟨fun pub1 i key fuel a t p n e1 e2 h1 h2 ho =>
      sendRetry_retryAfter_gap pub1 i key fuel a t p n e1 e2 h1 h2 ho,
    fun pub1 i key t hall => sendRetry_allRetry pub1 i key hall 6 0 t⟩

/-- Counterexample for C5: a Publisher answering `retry-after 5` on
every attempt exhausts the 6-attempt budget and the message is dropped
(no attempt succeeded, `_send_with_retry` returns `false`), refuting
"provider-imposed backoff responses never by themselves cause the
message to be dropped". -/
theorem claim5_cex :
    (sendRetryTrace pubAlwaysRetry 0 "m" 6 0 0).2.2 = false ∧
    ((sendRetryTrace pubAlwaysRetry 0 "m" 6 0 0).1).length = 6 ∧
    (∀ e ∈ (sendRetryTrace pubAlwaysRetry 0 "m" 6 0 0).1,
      e.out ≠ Outcome.success) := by
  exact ⟨by decide, by decide, by decide⟩

/-- Witness for C5 amended: concrete `retry-after 5` then success —
attempt 0 at time 0, attempt 1 exactly 6 = 5+1 seconds later; and an
all-retry-after oracle ends dropped. -/
theorem claim5_witness :
    (⟨6, 0, "m", Outcome.success⟩ : TEv).time
      = (⟨0, 0, "m", Outcome.retryAfter 5⟩ : TEv).time + ((5 : ℚ) + 1) ∧
    (sendRetryTrace pubAlwaysRetry 1 "x" 6 0 0).2.2 = false :=
  ⟨claim5_amended_backoff.1 pubRetryThenOk 0 "m" 6 0 0 0 5
      ⟨0, 0, "m", Outcome.retryAfter 5⟩ ⟨6, 0, "m", Outcome.success⟩
      (by norm_num [sendRetryTrace, pubRetryThenOk])
      (by norm_num [sendRetryTrace, pubRetryThenOk]) rfl,
    (claim5_amended_backoff.2 pubAlwaysRetry 1 "x" 0 (fun _ => ⟨5, rfl⟩)).1⟩

/-- C6: between any two successive successful Publisher calls at least
`delay` (= `SEND_DELAY_SECONDS`) elapses: the worker sleeps the delay
after every send-attempt cycle — in the `finally:` block, so win or
lose — and a cycle contains at most one success. -/
theorem claim6_min_spacing (pub : Nat → Nat → Outcome) (delay : ℚ)
    (msgs : List String) (i0 : Nat) (t0 : ℚ) (hd : 0 ≤ delay) (p : Nat)
    (e1 e2 : TEv)
    (h1 : (succEvents (workerTrace pub delay msgs i0 t0).1)[p]? = some e1)
    (h2 : (succEvents (workerTrace pub delay msgs i0 t0).1)[p + 1]?
      = some e2) :
    e1.time + delay ≤ e2.time := by
  induction msgs generalizing i0 t0 p with
  | nil => simp [workerTrace, succEvents] at h1
  | cons k ks ih =>
    have hsp : succEvents (workerTrace pub delay (k :: ks) i0 t0).1
        = succEvents (sendRetryTrace (pub i0) i0 k 6 0 t0).1
          ++ succEvents (workerTrace pub delay ks (i0 + 1)
            ((sendRetryTrace (pub i0) i0 k 6 0 t0).2.1 + delay)).1 := by
      simp [workerTrace, succEvents, List.filter_append]
    rw [hsp] at h1 h2
    rcases hfb : succEvents (sendRetryTrace (pub i0) i0 k 6 0 t0).1
      with _ | ⟨s, l⟩
    · rw [hfb] at h1 h2
      simp only [List.nil_append] at h1 h2
      exact ih (i0 + 1) _ p h1 h2
    · have hl : l = [] := by
        have hle := sendRetry_succ_le_one (pub i0) i0 k 6 0 t0
        rw [hfb] at hle
        simpa using hle
      subst hl
      rw [hfb] at h1 h2
      simp only [List.cons_append, List.nil_append] at h1 h2
      cases p with
      | zero =>
        simp only [List.getElem?_cons_zero] at h1
        obtain rfl := Option.some.inj h1
        simp only [List.getElem?_cons_succ] at h2
        have he2mem : e2 ∈ succEvents (workerTrace pub delay ks (i0 + 1)
            ((sendRetryTrace (pub i0) i0 k 6 0 t0).2.1 + delay)).1 :=
          mem_of_getElem?_some h2
        simp only [succEvents, List.mem_filter] at he2mem
        have he2 := worker_time_ge pub delay hd ks (i0 + 1) _ e2 he2mem.1
        have hsmem0 : s ∈ succEvents (sendRetryTrace (pub i0) i0 k 6 0 t0).1 := by
          rw [hfb]
          exact List.mem_singleton_self s
        simp only [succEvents, List.mem_filter] at hsmem0
        have hsmem := hsmem0.1
        have hsend := ((sendRetry_time (pub i0) i0 k 6 0 t0).1 s hsmem).2
        linarith
      | succ q =>
        simp only [List.getElem?_cons_succ] at h1 h2
        exact ih (i0 + 1) _ q h1 h2

/-- Witness for C6: two immediately-successful messages with delay 1 —
the second success is at least 1 second after the first. -/
theorem claim6_witness :
    (⟨0, 0, "a", Outcome.success⟩ : TEv).time + 1 ≤
      (⟨1, 1, "b", Outcome.success⟩ : TEv).time :=
  claim6_min_spacing pubOk 1 ["a", "b"] 0 0 (by norm_num) 0
    ⟨0, 0, "a", Outcome.success⟩ ⟨1, 1, "b", Outcome.success⟩
    (by norm_num [workerTrace, sendRetryTrace, succEvents, pubOk])
    (by norm_num [workerTrace, sendRetryTrace, succEvents, pubOk])

end ForexBot
